import Mathlib

/-!
Verification development for the `expediente-digital` retrieval pipeline.

The repository implements a document-search pipeline over three MongoDB
collections (`circulares`, `instructivos`, `reglamentos`):
an intent classifier, a query compiler (`buildSearchQuery`), a collection
dispatcher with a specialized "latest instruction" resolver (`findLatest` /
`getNumber`), a result normalizer (dedup by `_id`, null/undefined pruning,
date stringification, keyword splitting, article-number coercion), and an
orchestrating flow (`searchDocumentsFlow` in `src/ai/flows/search-documents.ts`,
plus a two-phase variant in the revision stored as `src/unnamed/part_003`, and
the server action `handleSearch` in `src/app/actions.ts`).

This file shallowly embeds those functions and proves properties of them.
MongoDB regex conditions built from user keywords are modelled with
case-insensitive substring semantics (the patterns used by the code are plain
keywords or explicitly anchored literals); a stored document is modelled, for
query-matching purposes, as a function from field paths to the list of string
values reachable at that path (Mongo matches a condition on an array-valued
path if any element matches).
-/

/-! ### String helpers (JS `String.prototype` behaviour) -/

/-- Is `p` a contiguous sublist of `l`?  (Used for substring tests.) -/
def charsContain (p : List Char) : List Char → Bool
  | [] => p.isEmpty
  | c :: rest => p.isPrefixOf (c :: rest) || charsContain p rest

/-- The characters of `s.toLowerCase()`. -/
def lowerChars (s : String) : List Char :=
  s.data.map Char.toLower

/-- Case-insensitive substring test: JS `s.toLowerCase().includes(pat.toLowerCase())`,
which is also the semantics of `{$regex: pat, $options: 'i'}` for a plain keyword `pat`. -/
def ciContains (s pat : String) : Bool :=
  charsContain (lowerChars pat) (lowerChars s)

/-- Case-insensitive prefix test: semantics of `{$regex: "^" ++ pat, $options: 'i'}`
for a literal `pat`. -/
def ciBegins (s pat : String) : Bool :=
  (lowerChars pat).isPrefixOf (lowerChars s)

/-- Case-insensitive suffix test: semantics of `{$regex: pat ++ "$", $options: 'i'}`
for a literal `pat`. -/
def ciEnds (s pat : String) : Bool :=
  (lowerChars pat).isSuffixOf (lowerChars s)

/-- JS `s.split(sep)` for a one-character separator (the code only splits on
`","`, `"/"` and `"."`): splitting the empty string gives `[[]]`. -/
def splitChar (sep : Char) : List Char → List (List Char)
  | [] => [[]]
  | a :: rest =>
    if a == sep then [] :: splitChar sep rest
    else
      match splitChar sep rest with
      | [] => [[a]]
      | g :: gs => (a :: g) :: gs

/-- JS `s.trim()`: strip leading and trailing whitespace. -/
def trimChars (l : List Char) : List Char :=
  ((l.dropWhile Char.isWhitespace).reverse.dropWhile Char.isWhitespace).reverse

/-- JS `arr.join(",")`. -/
def joinComma : List String → String
  | [] => ""
  | [s] => s
  | s :: rest => s ++ "," ++ joinComma rest

/-- JS `s.slice(-2)`: the last two characters (the whole string if shorter). -/
def lastTwoChars (s : String) : String :=
  ⟨s.data.drop (s.data.length - 2)⟩

/-- Lexicographic order on character lists (binary comparison of code points),
the order the store uses to compare string values when sorting. -/
def charsLe : List Char → List Char → Bool
  | [], _ => true
  | _ :: _, [] => false
  | a :: as, b :: bs => if a == b then charsLe as bs else decide (a < b)

/-! ### The intent model (the `IntentSchema` zod schema) -/

/-- The `intent` enum of `IntentSchema`. -/
inductive IntentKind where
  | search_info
  | count_items
  | search_latest
  | unknown
deriving DecidableEq, Repr

/-- The `documentType` enum of `IntentSchema` (`'circular' | 'instruction' | 'regulation' | 'all'`). -/
inductive DocType where
  | circular
  | instruction
  | regulation
  | all
deriving DecidableEq, Repr

/-- The `instructivoType` enum (`'interno' | 'externo' | 'ambos'`). -/
inductive InstructivoType where
  | interno
  | externo
  | ambos
deriving DecidableEq, Repr

/-- The structured intent produced by `extractIntentPrompt`.  An absent
`keywords` array is modelled as `[]` (the code only ever tests
`!keywords || keywords.length === 0` and reads `keywords || []`). -/
structure Intent where
  intent : IntentKind
  documentType : Option DocType
  keywords : List String
  year : Option Nat
  instructivoType : Option InstructivoType
deriving DecidableEq, Repr

/-- JS truthiness of the optional `year` field: `undefined` and `0` are falsy. -/
def yearTruthy : Option Nat → Bool
  | none => false
  | some y => y != 0

/-! ### Filter-predicate trees (the MongoDB query documents built by the code) -/

/-- The shapes of MongoDB filter documents that `buildSearchQuery` and the
dispatcher construct.  `regexField f p` is `{f: {$regex: p, $options:'i'}}`
with `p` a plain keyword; `startField f p` is `{f: {$regex: "^"++p, $options:'i'}}`;
`endField f p` is `{f: {$regex: p++"$", $options:'i'}}`; `eqField f v` is the
exact-match `{f: v}`; `orQ`/`andQ` are `{$or: [...]}`/`{$and: [...]}`; `emptyQ`
is the match-all `{}`. -/
inductive MongoQuery where
  | emptyQ
  | regexField (field pat : String)
  | startField (field pat : String)
  | endField (field pat : String)
  | eqField (field value : String)
  | orQ (cs : List MongoQuery)
  | andQ (cs : List MongoQuery)

/-- A stored document, abstracted for query matching: the list of string values
reachable at each (possibly dotted) field path.  A missing field yields `[]`. -/
def Doc : Type := String → List String

mutual
/-- Matching semantics of the filter documents of `MongoQuery` against a `Doc`. -/
def matchesQ (d : Doc) : MongoQuery → Bool
  | .emptyQ => true
  | .regexField f pat => (d f).any (fun v => ciContains v pat)
  | .startField f pat => (d f).any (fun v => ciBegins v pat)
  | .endField f pat => (d f).any (fun v => ciEnds v pat)
  | .eqField f val => (d f).any (fun v => v == val)
  | .orQ cs => matchesAnyQ d cs
  | .andQ cs => matchesAllQ d cs

/-- Semantics of `$or`: some clause matches. -/
def matchesAnyQ (d : Doc) : List MongoQuery → Bool
  | [] => false
  | c :: cs => matchesQ d c || matchesAnyQ d cs

/-- Semantics of `$and`: every clause matches. -/
def matchesAllQ (d : Doc) : List MongoQuery → Bool
  | [] => true
  | c :: cs => matchesQ d c && matchesAllQ d cs
end

/-! ### The query compiler: `buildSearchQuery` from `src/ai/flows/search-documents.ts` -/

/-- The regex `/^\d{1,2}\/\d{2}$/` used to recognize a circular "number/year" code. -/
def circularNumberTest (k : String) : Bool :=
  match splitChar '/' k.data with
  | [a, b] =>
    decide (1 ≤ a.length) && decide (a.length ≤ 2) && a.all Char.isDigit &&
    decide (b.length = 2) && b.all Char.isDigit
  | _ => false

/-- The helper `documentTypesToQuery`: `documentType === 'all' ? ['circular','instruction','regulation'] : [documentType]`. -/
def documentTypesToQuery : DocType → List DocType
  | .all => [.circular, .instruction, .regulation]
  | t => [t]

/-- Fields pushed for the `circular` document type. -/
def circularSearchFields : List String :=
  ["tipo_normativa", "numero", "resumen", "tema", "palabras_clave",
   "entidades_afectadas.nombre_entidad", "entidades_afectadas.tipo",
   "entidades_afectadas.tipo_entidad"]

/-- Fields pushed for the `instruction` document type. -/
def instructionSearchFields : List String :=
  ["titulo", "resumen", "palabras_clave", "tipo_normativa"]

/-- Fields pushed for the `regulation` document type. -/
def regulationSearchFields : List String :=
  ["titulo_seccion", "articulos.resumen_articulo", "articulos.palabras_clave_articulo"]

/-- The `textSearchFields` accumulated per requested document type, in push order. -/
def textSearchFields (t : DocType) : List String :=
  (if (documentTypesToQuery t).contains .circular then circularSearchFields else [])
  ++ (if (documentTypesToQuery t).contains .instruction then instructionSearchFields else [])
  ++ (if (documentTypesToQuery t).contains .regulation then regulationSearchFields else [])

/-- JS `[...new Set(fields)]`: JS `Set` keeps the first occurrence of each element. -/
def jsSetDedup (l : List String) : List String :=
  l.foldl (fun acc x => if acc.contains x then acc else acc ++ [x]) []

/-- The `uniqueTextSearchFields` list for a document type. -/
def uniqueTextSearchFields (t : DocType) : List String :=
  jsSetDedup (textSearchFields t)

/-- The OR-clause one keyword contributes: one `$regex` condition per unique field. -/
def keywordClause (t : DocType) (kw : String) : MongoQuery :=
  .orQ ((uniqueTextSearchFields t).map (fun f => .regexField f kw))

/-- The per-keyword `{$or: ...}` clauses pushed into `andConditions`; the code
pushes a keyword's clause only if its field list is non-empty
(`orClausesForKeyword.length > 0`, and that list has one entry per unique field). -/
def keywordClauses (t : DocType) (kws : List String) : List MongoQuery :=
  kws.filterMap (fun kw =>
    if (uniqueTextSearchFields t).isEmpty then none else some (keywordClause t kw))

/-- The year clause (`// 2. Year search logic`): an `$or` of a
`fecha_expedicion` prefix condition and, when the circular collection is being
queried, a (CIRCULAR-type ∧ number-ends-in-`/yy`) condition.  JS `if (year)`
skips the clause when `year` is `undefined` or `0`. -/
def yearConditions (t : DocType) (year : Option Nat) : List MongoQuery :=
  match year with
  | none => []
  | some y =>
    if y = 0 then []
    else
      let yearLong := toString y
      let yearShort := lastTwoChars (toString y)
      let base := [MongoQuery.startField "fecha_expedicion" yearLong]
      let conds :=
        if t = .all ∨ t = .circular then
          base ++ [MongoQuery.andQ
            [.regexField "tipo_normativa" "CIRCULAR",
             .endField "numero" ("/" ++ yearShort)]]
        else base
      [.orQ conds]

/-- The high-precision exact-match query returned for a circular number code:
`{tipo_normativa: {$regex: "CIRCULAR", $options:'i'}, numero: kw}` (a Mongo
document with two fields is the conjunction of its field conditions). -/
def circularShortcut (kw : String) : MongoQuery :=
  .andQ [.regexField "tipo_normativa" "CIRCULAR", .eqField "numero" kw]

/-- Final combination of `andConditions`: `{}` for none, the single condition
alone, or `{$and: [...]}`. -/
def combineConditions : List MongoQuery → MongoQuery
  | [] => .emptyQ
  | [c] => c
  | cs => .andQ cs

/-- The function `buildSearchQuery` from `src/ai/flows/search-documents.ts` (lines 141–214):
conjunctive keywords — each keyword contributes its own OR-clause, all clauses
(plus the year clause) are ANDed. -/
def buildSearchQuery (keywords : List String) (t : DocType) (year : Option Nat) : MongoQuery :=
  let rest := combineConditions (keywordClauses t keywords ++ yearConditions t year)
  match keywords.find? circularNumberTest with
  | some kw => if t = .circular ∨ t = .all then circularShortcut kw else rest
  | none => rest

namespace Actions

/-- The function `buildSearchQuery` from `src/app/actions.ts` (lines 128–203): same circular
shortcut and year clause, but every keyword's field conditions are pushed into
one shared `keywordOrConditions` array, which becomes a single `{$or: ...}` —
keywords combine disjunctively in this revision. -/
def buildSearchQuery (keywords : List String) (t : DocType) (year : Option Nat) : MongoQuery :=
  let keywordOrConditions :=
    keywords.flatMap (fun kw =>
      (uniqueTextSearchFields t).map (fun f => MongoQuery.regexField f kw))
  let finalConditions :=
    (if keywordOrConditions.isEmpty then [] else [MongoQuery.orQ keywordOrConditions])
    ++ yearConditions t year
  match keywords.find? circularNumberTest with
  | some kw => if t = .circular ∨ t = .all then circularShortcut kw else combineConditions finalConditions
  | none => combineConditions finalConditions

end Actions

/-! ### Stored records (BSON-ish values) and the result normalizer -/

/-- A BSON-ish value as the pipeline sees it: `vnull`/`vundef` are JS
`null`/`undefined`, `vdate iso` is a `Date` modelled by its ISO-8601 rendering
(`toISOString()`), and arrays/objects nest. -/
inductive JVal where
  | vnull
  | vundef
  | vstr (s : String)
  | vnum (n : Int)
  | vdate (iso : String)
  | varr (elems : List JVal)
  | vobj (fields : List (String × JVal))

/-- JS truthiness of a value (`null`, `undefined`, `''` and `0` are falsy;
arrays and objects are always truthy). -/
def jsTruthy : JVal → Bool
  | .vnull => false
  | .vundef => false
  | .vstr s => !s.data.isEmpty
  | .vnum n => n != 0
  | .vdate _ => true
  | .varr _ => true
  | .vobj _ => true

mutual
/-- JS `String(v)` for the values we model (dates are rendered by the ISO form
that models them; JS arrays stringify as the comma-join of their elements). -/
def jsStringOf : JVal → String
  | .vnull => "null"
  | .vundef => "undefined"
  | .vstr s => s
  | .vnum n => toString n
  | .vdate iso => iso
  | .varr es => joinComma (jsStringOfList es)
  | .vobj _ => "[object Object]"

/-- JS `String(...)` applied elementwise (for array stringification). -/
def jsStringOfList : List JVal → List String
  | [] => []
  | e :: es => jsStringOf e :: jsStringOfList es
end

/-- A fetched document: `idStr` models `_id.toString()`, `fields` the remaining
key/value pairs in object order. -/
structure MRec where
  idStr : String
  fields : List (String × JVal)

/-- The three collections of the database. -/
structure Store where
  circulares : List MRec
  instructivos : List MRec
  reglamentos : List MRec

mutual
/-- Values reachable from a value along a dotted field path, with Mongo's
traversal rule: an array encountered mid-path is descended elementwise. -/
def valuesAt : JVal → List String → List JVal
  | v, [] => [v]
  | .vobj fs, k :: rest => valuesAtFields fs k rest
  | .varr es, ks => valuesAtList es ks
  | _, _ => []

/-- Looking up the key in an object's fields (first match) and continuing. -/
def valuesAtFields : List (String × JVal) → String → List String → List JVal
  | [], _, _ => []
  | (k', v) :: fs, k, rest => if k' == k then valuesAt v rest else valuesAtFields fs k rest

/-- The traversal `valuesAt` over the elements of an array. -/
def valuesAtList : List JVal → List String → List JVal
  | [], _ => []
  | e :: es, ks => valuesAt e ks ++ valuesAtList es ks
end

/-- String values of a terminal value: a string yields itself, an array yields
its string elements (Mongo matches a condition on an array field if any
element matches), anything else yields nothing (the `$regex`/string-equality
conditions the code builds only match strings). -/
def stringValues : JVal → List String
  | .vstr s => [s]
  | .varr es => es.filterMap (fun e => match e with | .vstr s => some s | _ => none)
  | _ => []

/-- A record as a `Doc` for query matching: the strings at each field path. -/
def docOf (r : MRec) (path : String) : List String :=
  (valuesAt (.vobj r.fields) ((splitChar '.' path.data).map String.mk)).flatMap stringValues

/-- Semantics of `collection.find(query).toArray()`: the records matching the filter. -/
def findDocs (q : MongoQuery) (docs : List MRec) : List MRec :=
  docs.filter (fun r => matchesQ (docOf r) q)

/-- The documents of the collection a `DocType` maps to (`collectionMap`). -/
def collDocs (db : Store) : DocType → List MRec
  | .circular => db.circulares
  | .instruction => db.instructivos
  | .regulation => db.reglamentos
  | .all => []

/-! ### Result normalizer (dedup, field pruning, date rendering, coercions) -/

/-- Worker for `dedupById`, carrying the ids already seen. -/
def dedupByIdAux (seen : List String) : List MRec → List MRec
  | [] => []
  | r :: rs =>
    if seen.contains r.idStr then dedupByIdAux seen rs
    else r :: dedupByIdAux (r.idStr :: seen) rs

/-- The dedup step `results.filter((result, index, self) => index === self.findIndex(r =>
r._id.toString() === result._id.toString()))`: keep the first record for each
`_id`. -/
def dedupById (rs : List MRec) : List MRec := dedupByIdAux [] rs

/-- JS `s.split(',').map(s => s.trim())` turned into a keyword array. -/
def splitKeywordString (s : String) : JVal :=
  .varr ((splitChar ',' s.data).map (fun g => JVal.vstr ⟨trimChars g⟩))

/-- Assignment to an object property (object keys are unique, so replacing
every pair with the key is JS property assignment). -/
def setFieldJ (fs : List (String × JVal)) (k : String) (v : JVal) : List (String × JVal) :=
  fs.map (fun kv => if kv.1 == k then (kv.1, v) else kv)

/-- The `palabras_clave` sanitization of `searchDocumentsFlow`
(`if (typeof result.palabras_clave === 'string')` — note: no truthiness check,
an empty string is split too). -/
def sanitizeKeywords (r : MRec) : MRec :=
  match r.fields.lookup "palabras_clave" with
  | some (.vstr s) => ⟨r.idStr, setFieldJ r.fields "palabras_clave" (splitKeywordString s)⟩
  | _ => r

/-- One step of the `Object.keys(result).forEach` loop: drop a
`null`/`undefined` field, render a `Date` value with `toISOString()`. -/
def pruneEntry : String × JVal → Option (String × JVal)
  | (_, .vnull) => none
  | (_, .vundef) => none
  | (k, .vdate iso) => some (k, .vstr iso)
  | kv => some kv

/-- The `Object.keys(result).forEach` loop: drop `null`/`undefined` top-level
fields, render top-level `Date` values with `toISOString()`. -/
def pruneTopLevel (fs : List (String × JVal)) : List (String × JVal) :=
  fs.filterMap pruneEntry

/-- Per-article coercion: if the article is an object with a truthy
`numero_articulo`, replace that field by `String(...)` of its value. -/
def coerceArticulo : JVal → JVal
  | .vobj fs =>
    match fs.lookup "numero_articulo" with
    | some v =>
      if jsTruthy v then .vobj (setFieldJ fs "numero_articulo" (.vstr (jsStringOf v)))
      else .vobj fs
    | none => .vobj fs
  | a => a

/-- The guard `if (result.articulos && Array.isArray(result.articulos))`: JS arrays are
always truthy, so this fires exactly when the value is an array; each article
is then coerced. -/
def applyArticulosCoercion (fs : List (String × JVal)) : List (String × JVal) :=
  match fs.lookup "articulos" with
  | some (.varr as) => setFieldJ fs "articulos" (.varr (as.map coerceArticulo))
  | _ => fs

/-- The per-record processing of `searchDocumentsFlow` (`processedResults`):
top-level pruning/date rendering, then article-number coercion. -/
def processRecord (r : MRec) : MRec :=
  ⟨r.idStr, applyArticulosCoercion (pruneTopLevel r.fields)⟩

/-- The whole normalization of `searchDocumentsFlow` (lines 310–347): dedup by
`_id`, keyword-string sanitization, then per-record processing. -/
def normalizePipeline (rs : List MRec) : List MRec :=
  ((dedupById rs).map sanitizeKeywords).map processRecord

/-- One prune step of the `part_003` revision: its loop tests
`result[key] === null` only (an `undefined` value is kept). -/
def pruneEntryOnlyNull : String × JVal → Option (String × JVal)
  | (_, .vnull) => none
  | (k, .vdate iso) => some (k, .vstr iso)
  | kv => some kv

/-- Per-record pruning of the `part_003` revision: dates and articles as in
the other revision, but only `null` fields are dropped. -/
def pruneTopLevelOnlyNull (fs : List (String × JVal)) : List (String × JVal) :=
  fs.filterMap pruneEntryOnlyNull

/-- The `processedResults` mapping of the `part_003` revision. -/
def processRecordV2 (r : MRec) : MRec :=
  ⟨r.idStr, applyArticulosCoercion (pruneTopLevelOnlyNull r.fields)⟩

/-! ### Latest-instruction resolver (`getNumber` / `findLatest`) -/

/-- Decimal value of a digit sequence (what `parseInt` computes on it). -/
def digitsVal (ds : List Char) : Nat :=
  ds.foldl (fun a c => a * 10 + (c.toNat - '0'.toNat)) 0

/-- The function `getNumber`: `title.match(/^[IE](\d+)/)` and `parseInt` of the captured
digits, `0` when the title does not match. -/
def getNumber (title : String) : Nat :=
  match title.toList with
  | [] => 0
  | c :: rest =>
    if c == 'I' || c == 'E' then
      if (rest.takeWhile Char.isDigit).isEmpty then 0
      else digitsVal (rest.takeWhile Char.isDigit)
    else 0

/-- Whether a title matches the anchored pattern `^[IE]\d+`. -/
def titleParses (title : String) : Bool :=
  match title.toList with
  | [] => false
  | c :: rest => (c == 'I' || c == 'E') && !(rest.takeWhile Char.isDigit).isEmpty

/-- JS `a.titulo || ''`: the title when it is a (truthy) string, `''` otherwise. -/
def tituloOrEmpty (r : MRec) : String :=
  match r.fields.lookup "titulo" with
  | some (.vstr s) => s
  | _ => ""

/-- The fetch filter `{titulo: {$regex: "^" ++ letter}}` (case-sensitive, no
`$options`): the title is a string starting with the letter. -/
def hasTituloLetter (letter : String) (r : MRec) : Bool :=
  match r.fields.lookup "titulo" with
  | some (.vstr s) => letter.data.isPrefixOf s.data
  | _ => false

/-- The comparator `(a, b) => getNumber(b.titulo||'') - getNumber(a.titulo||'')`
as the order of a stable sort: descending by parsed number.  JS `Array.sort`
is stable (ES2019); any stable sort with the same comparator produces the same
array, and we use the stable `List.insertionSort`. -/
def byNumberDesc (a b : MRec) : Prop :=
  getNumber (tituloOrEmpty b) ≤ getNumber (tituloOrEmpty a)

instance : DecidableRel byNumberDesc :=
  fun _ _ => Nat.decLe _ _

instance : IsTotal MRec byNumberDesc :=
  ⟨fun _ _ => Nat.le_total _ _⟩

instance : IsTrans MRec byNumberDesc :=
  ⟨fun _ _ _ h1 h2 => le_trans h2 h1⟩

/-- The resolver `findLatest` from `searchDocumentsFlow` / `handleSearch`: fetch the
instructions whose title starts with the letter, return `null` if none, else
sort descending by parsed number and take the first. -/
def findLatest (letter : String) (instructivos : List MRec) : Option MRec :=
  let found := instructivos.filter (hasTituloLetter letter)
  if found.isEmpty then none
  else (found.insertionSort byNumberDesc).head?

/-- The `instructivoType` dispatch around `findLatest`: `interno` → latest "I",
`externo` → latest "E", `ambos`/`undefined` → latest "I" then latest "E",
skipping `null`s. -/
def resolveLatest (ity : Option InstructivoType) (instructivos : List MRec) : List MRec :=
  match ity with
  | some .interno => (findLatest "I" instructivos).toList
  | some .externo => (findLatest "E" instructivos).toList
  | _ => (findLatest "I" instructivos).toList ++ (findLatest "E" instructivos).toList

/-! ### Latest circulars (`handleSearch`, `src/app/actions.ts` lines 263–270) -/

/-- The `fecha_expedicion` sort key: dates are ordered by their ISO rendering
(ISO-8601 strings order chronologically) and a missing field sorts lowest. -/
def fechaKey (r : MRec) : String :=
  match r.fields.lookup "fecha_expedicion" with
  | some (.vstr s) => s
  | some (.vdate iso) => iso
  | _ => ""

/-- Mongo `.sort({fecha_expedicion: -1})` as the order of a stable sort: descending
by key. -/
def byFechaDesc (a b : MRec) : Prop :=
  charsLe (fechaKey b).data (fechaKey a).data = true

instance : DecidableRel byFechaDesc :=
  fun a b => instDecidableEqBool (charsLe (fechaKey b).data (fechaKey a).data) true

/-- Semantics of `collection.find({}).sort({fecha_expedicion: -1}).limit(5).toArray()`. -/
def latestCirculares (circulares : List MRec) : List MRec :=
  (circulares.insertionSort byFechaDesc).take 5

/-! ### Count pipeline (`part_003` revision, lines 144–163) -/

/-- Number of output documents `$unwind: "$articulos"` produces for one input
document: one per array element; a missing/null/empty-array field produces
none; a non-array value is treated as a singleton. -/
def articleUnwindValue (r : MRec) : Nat :=
  match r.fields.lookup "articulos" with
  | none => 0
  | some .vnull => 0
  | some .vundef => 0
  | some (.varr es) => es.length
  | some _ => 1

/-- The `[{$unwind: "$articulos"}, {$count: "total_articles"}]` aggregation
(`result[0].total_articles`, or `0` when the aggregation yields no row). -/
def unwindArticleCount (docs : List MRec) : Nat :=
  (docs.map articleUnwindValue).sum

/-- The `collectionsToQuery` list by collection name. -/
def collectionNames : DocType → List String
  | .all => ["circulares", "instructivos", "reglamentos"]
  | .circular => ["circulares"]
  | .instruction => ["instructivos"]
  | .regulation => ["reglamentos"]

/-- A collection by name. -/
def collDocsByName (db : Store) (name : String) : List MRec :=
  if name == "circulares" then db.circulares
  else if name == "instructivos" then db.instructivos
  else if name == "reglamentos" then db.reglamentos
  else []

/-- The `count_items` branch: per collection, the unwind aggregation for
`reglamentos` and `countDocuments()` for the others, summed into `totalCount`. -/
def countItems (db : Store) (t : DocType) : Nat :=
  ((collectionNames t).map (fun name =>
    if name == "reglamentos" then unwindArticleCount (collDocsByName db name)
    else (collDocsByName db name).length)).sum

/-! ### Orchestration -/

def noIntentAnswer : String :=
  "No pude determinar la intención de su consulta. Por favor, intente reformularla."

def greetingAnswer : String :=
  "¡Hola! Soy Digitalius, tu asistente de IA para la búsqueda de documentos. ¿En qué puedo ayudarte hoy?"

def cannotHelpAnswer : String :=
  "No estoy seguro de cómo ayudar con eso. Por favor, intente una consulta diferente o más específica."

def noResultsAnswer : String :=
  "No se encontraron documentos que coincidan con su búsqueda."

def noKeywordsAnswer : String :=
  "No se pudieron extraer palabras clave de su consulta. Por favor, intente reformularla."

def cannotHelpAnswerV2 : String :=
  "No estoy seguro de cómo ayudar con eso. Por favor, intente una consulta diferente."

/-- What `generateAnswerPrompt` receives as `context`: either the JSON
serialization of a record list, or `String(totalCount)` for a count. -/
inductive SynthContext where
  | recordsCtx (rs : List MRec)
  | countCtx (n : Nat)

/-- How a flow run ends: a `terminal` return (the flow returns its fixed
answer without calling `generateAnswerPrompt`) or a `synthesized` return (the
flow calls `generateAnswerPrompt` with the given context and returns its
answer together with the processed results). -/
inductive FlowOutcome where
  | terminal (results : List MRec) (answer : String)
  | synthesized (results : List MRec) (ctx : SynthContext)

/-- The short-circuit test of `searchDocumentsFlow` (line 236) and of the
two-phase revision (line 446): unknown intent, or a non-`search_latest` intent
with no keywords and a falsy year. -/
def shortCircuitTest (i : Intent) : Bool :=
  i.intent == .unknown ||
    (i.intent != .search_latest && i.keywords.isEmpty && !(yearTruthy i.year))

/-- The dispatch of `searchDocumentsFlow` (lines 255–300): the `findLatest`
path for `search_latest` on instructions, otherwise one compiled query per
selected collection, results concatenated. -/
def dispatchV1 (i : Intent) (db : Store) : List MRec :=
  let t := i.documentType.getD .all
  if i.intent == .search_latest && t == .instruction then
    resolveLatest i.instructivoType db.instructivos
  else
    (documentTypesToQuery t).flatMap (fun ct =>
      findDocs (buildSearchQuery i.keywords ct i.year) (collDocs db ct))

/-- The flow `searchDocumentsFlow` from `src/ai/flows/search-documents.ts` (lines
218–366), as a function of the classifier's output (`none` models a missing
`intentOutput`) and of the database contents. -/
def flowV1 (query : String) (io : Option Intent) (db : Store) : FlowOutcome :=
  match io with
  | none => .terminal [] noIntentAnswer
  | some i =>
    if shortCircuitTest i then
      if ciContains query "hola" then .terminal [] greetingAnswer
      else .terminal [] cannotHelpAnswer
    else
      let results := dispatchV1 i db
      if results.isEmpty then .terminal [] noResultsAnswer
      else
        let uniqueResults := (dedupById results).map sanitizeKeywords
        .synthesized (uniqueResults.map processRecord) (.recordsCtx uniqueResults)

/-- The per-collection `search_info` query of the `part_003` revision: text
fields get one `$regex` condition per keyword; the keyword-array fields get a
`{$in: [regexes]}` condition, which matches when any of the keyword regexes
matches (modelled as an `$or` over the keywords). -/
def buildSearchQueryV2 (keywords : List String) (isRegulation : Bool) : MongoQuery :=
  let textFields :=
    ["resumen", "titulo", "tema"]
      ++ (if isRegulation then ["titulo_seccion", "articulos.resumen_articulo"] else [])
  let keywordFields :=
    ["palabras_clave"]
      ++ (if isRegulation then ["articulos.palabras_clave_articulo"] else [])
  let orClauses :=
    keywords.flatMap (fun kw => textFields.map (fun f => MongoQuery.regexField f kw))
      ++ keywordFields.map (fun f =>
          MongoQuery.orQ (keywords.map (fun kw => MongoQuery.regexField f kw)))
  if orClauses.isEmpty then .emptyQ else .orQ orClauses

/-- The flow `searchDocumentsFlow` of the `part_003` revision (lines 117–262).  Its
intent enum has no `search_latest`; any intent other than `search_info` and
`count_items` falls into its final `unknown` branch. -/
def flowV2 (_query : String) (io : Option Intent) (db : Store) : FlowOutcome :=
  match io with
  | none => .terminal [] noIntentAnswer
  | some i =>
    let t := i.documentType.getD .all
    match i.intent with
    | .count_items => .synthesized [] (.countCtx (countItems db t))
    | .search_info =>
      if i.keywords.isEmpty then .terminal [] noKeywordsAnswer
      else
        let results := (documentTypesToQuery t).flatMap (fun ct =>
          findDocs (buildSearchQueryV2 i.keywords (ct == .regulation)) (collDocs db ct))
        if results.isEmpty then .terminal [] noResultsAnswer
        else .synthesized (results.map processRecordV2) (.recordsCtx results)
    | _ => .terminal [] cannotHelpAnswerV2

/-- Outcome of the first call of the two-phase revision (`part_003`, lines
400–461): a terminal answer, or a `requiresContext` signal carrying the intent. -/
inductive PhaseOneOutcome where
  | terminalP (results : List MRec) (answer : String)
  | needsContext (i : Intent)

/-- The first (classification) call of the two-phase `searchDocumentsFlow`:
no database argument at all — a short-circuited query never touches the store. -/
def classifyPhase (query : String) (io : Option Intent) : PhaseOneOutcome :=
  match io with
  | none => .terminalP [] noIntentAnswer
  | some i =>
    if shortCircuitTest i then
      if ciContains query "hola" then .terminalP [] greetingAnswer
      else .terminalP [] cannotHelpAnswer
    else .needsContext i

/-- The second (answer) call of the two-phase flow (lines 409–433): zero
fetched records short-circuit to the fixed no-results answer, otherwise the
synthesizer is invoked on the serialized records. -/
def answerPhase (dbResults : List MRec) : FlowOutcome :=
  if dbResults.isEmpty then .terminal [] noResultsAnswer
  else .synthesized dbResults (.recordsCtx dbResults)

namespace Actions

/-- The per-record processing of `handleSearch` (`src/app/actions.ts` lines
290–313): same pruning/date/article steps, and then (inside the same map) the
`palabras_clave` split — which here is guarded by truthiness, so an empty
string is not split. -/
def processRecord (r : MRec) : MRec :=
  let fs := applyArticulosCoercion (pruneTopLevel r.fields)
  match fs.lookup "palabras_clave" with
  | some (.vstr s) =>
    if !s.data.isEmpty then ⟨r.idStr, setFieldJ fs "palabras_clave" (splitKeywordString s)⟩
    else ⟨r.idStr, fs⟩
  | _ => ⟨r.idStr, fs⟩

/-- The normalization of `handleSearch`: dedup by `_id`, then per-record
processing. -/
def normalizePipeline (rs : List MRec) : List MRec :=
  (dedupById rs).map processRecord

/-- The dispatch of `handleSearch` (lines 236–284): `search_latest` uses
`findLatest` on instructions and the date-sorted, limit-5 fetch on circulars
(no fetch at all for other document types); every other intent compiles this
file's `buildSearchQuery` per selected collection. -/
def dispatch (i : Intent) (db : Store) : List MRec :=
  let t := i.documentType.getD .all
  if i.intent == .search_latest then
    if t == .instruction then resolveLatest i.instructivoType db.instructivos
    else if t == .circular then latestCirculares db.circulares
    else []
  else
    (documentTypesToQuery t).flatMap (fun ct =>
      findDocs (Actions.buildSearchQuery i.keywords ct i.year) (collDocs db ct))

end Actions

/-! ### Concrete example inputs and auxiliary predicates used by the theorems -/

/-- A document whose only value is `"alpha"` in `resumen`. -/
def exDocResumenAlpha : Doc := fun f => if f = "resumen" then ["alpha"] else []

def exInstI10 : MRec := ⟨"inst1", [("titulo", JVal.vstr "I10 - X")]⟩
def exInstI141 : MRec := ⟨"inst2", [("titulo", JVal.vstr "I141 - Y")]⟩
def exInstE3 : MRec := ⟨"inst3", [("titulo", JVal.vstr "E3 - Z")]⟩

/-- The instruction store of the spec's worked example. -/
def exInstStore : List MRec := [exInstI10, exInstI141, exInstE3]

def exInstINoNum1 : MRec := ⟨"noNum1", [("titulo", JVal.vstr "I - alta")]⟩
def exInstINoNum2 : MRec := ⟨"noNum2", [("titulo", JVal.vstr "Ix9")]⟩

/-- A fetched set none of whose titles match `^[IE]\d+`. -/
def exNoNumStore : List MRec := [exInstINoNum1, exInstINoNum2]

def exCircOld : MRec :=
  ⟨"circ1", [("numero", JVal.vstr "01/20"), ("fecha_expedicion", JVal.vstr "2020-01-15")]⟩
def exCircNew : MRec :=
  ⟨"circ2", [("numero", JVal.vstr "02/23"), ("fecha_expedicion", JVal.vstr "2023-03-10")]⟩

/-- A two-circular store. -/
def exCircDb : Store := ⟨[exCircOld, exCircNew], [], []⟩

def exNoMatchIntent : Intent := ⟨.search_info, some .circular, ["zzz"], none, none⟩

/-- An empty store. -/
def exEmptyDb : Store := ⟨[], [], []⟩

def exUnknownIntent : Intent := ⟨.unknown, none, [], none, none⟩

def exCountIntent : Intent := ⟨.count_items, some .circular, ["tasa"], none, none⟩
def exCircTasa : MRec := ⟨"circTasa", [("resumen", JVal.vstr "Sobre la tasa de interes")]⟩

/-- A store with one circular whose summary mentions "tasa". -/
def exCountDb : Store := ⟨[exCircTasa], [], []⟩

/-- A value acceptable at top level after processing: not `null`, not
`undefined`, not an unrendered `Date`. -/
def cleanVal : JVal → Bool
  | .vnull => false
  | .vundef => false
  | .vdate _ => false
  | _ => true

/-- All top-level fields of the record are clean. -/
def topLevelClean (r : MRec) : Bool :=
  r.fields.all (fun kv => cleanVal kv.2)

mutual
/-- Does a `null` occur anywhere inside the value? -/
def containsNullVal : JVal → Bool
  | .vnull => true
  | .varr es => containsNullList es
  | .vobj fs => containsNullFields fs
  | _ => false

/-- The check `containsNullVal` over array elements. -/
def containsNullList : List JVal → Bool
  | [] => false
  | e :: es => containsNullVal e || containsNullList es

/-- The check `containsNullVal` over object fields. -/
def containsNullFields : List (String × JVal) → Bool
  | [] => false
  | (_, v) :: fs => containsNullVal v || containsNullFields fs
end

/-- A regulation record with a `null` inside one of its articles. -/
def exNestedRec : MRec :=
  ⟨"reg1", [("titulo_seccion", JVal.vstr "TITULO I"),
            ("articulos", JVal.varr [JVal.vobj
              [("numero_articulo", JVal.vstr "1"), ("resumen_articulo", JVal.vnull)]])]⟩

/-- A record with a top-level date field and a top-level null field. -/
def exDateRec : MRec :=
  ⟨"d1", [("fecha_expedicion", JVal.vdate "2021-07-01T00:00:00.000Z"),
          ("tema", JVal.vnull)]⟩

/-- The record's `palabras_clave` field is not date-typed (idempotence of the
normalizer needs this: a date is rendered to its ISO string, which the next
normalization pass would then split on commas). -/
def keywordsNotDate (r : MRec) : Bool :=
  match r.fields.lookup "palabras_clave" with
  | some (.vdate _) => false
  | _ => true

/-- A record whose `palabras_clave` is date-typed: normalization renders it to
an ISO string, and a second pass splits that string into a one-element array. -/
def exDateKwRec : MRec :=
  ⟨"c9", [("palabras_clave", JVal.vdate "2023-05-05T00:00:00.000Z")]⟩

/-! ### Helper lemmas about the query algebra -/

theorem matchesAnyQ_eq_any (d : Doc) (cs : List MongoQuery) :
    matchesAnyQ d cs = cs.any (fun c => matchesQ d c) := by
  induction cs with
  | nil => rfl
  | cons c cs ih => simp [matchesAnyQ, ih]

theorem matchesAllQ_eq_all (d : Doc) (cs : List MongoQuery) :
    matchesAllQ d cs = cs.all (fun c => matchesQ d c) := by
  induction cs with
  | nil => rfl
  | cons c cs ih => simp [matchesAllQ, ih]

theorem keywordClauses_eq_map (t : DocType) (kws : List String) :
    keywordClauses t kws = kws.map (keywordClause t) := by
  have h : (uniqueTextSearchFields t).isEmpty = false := by cases t <;> decide
  simp only [keywordClauses, h, Bool.false_eq_true, if_false]
  exact List.filterMap_eq_map (keywordClause t) ▸ rfl

theorem combineConditions_eq_andQ (cs : List MongoQuery) (h : 2 ≤ cs.length) :
    combineConditions cs = .andQ cs := by
  match cs with
  | [] => simp at h
  | [c] => simp at h
  | a :: b :: rest => rfl

/-! ### C1 -/

/-- C1 (amended): for keyword lists of length ≥ 2 without a circular-number
keyword, the flow's `buildSearchQuery` is the AND of one OR-clause per keyword
(plus the year clause), so a matching document matches every keyword in some
applicable field.  (The `actions.ts` revision does not satisfy this — see the
counterexample.) -/
theorem claim1_conjunctive_keywords (kws : List String) (t : DocType) (y : Option Nat)
    (h2 : 2 ≤ kws.length) (hno : ∀ k ∈ kws, circularNumberTest k = false) :
    buildSearchQuery kws t y
      = .andQ (kws.map (keywordClause t) ++ yearConditions t y)
    ∧ ∀ d : Doc, matchesQ d (buildSearchQuery kws t y) = true →
        ∀ kw ∈ kws, ∃ f ∈ uniqueTextSearchFields t,
          (d f).any (fun v => ciContains v kw) = true := by
  have hfind : kws.find? circularNumberTest = none :=
    List.find?_eq_none.mpr (fun x hx => by simp [hno x hx])
  have hlen : 2 ≤ (kws.map (keywordClause t) ++ yearConditions t y).length := by
    rw [List.length_append, List.length_map]
    omega
  have hstruct : buildSearchQuery kws t y
      = .andQ (kws.map (keywordClause t) ++ yearConditions t y) := by
    unfold buildSearchQuery
    rw [hfind, keywordClauses_eq_map, combineConditions_eq_andQ _ hlen]
  refine ⟨hstruct, ?_⟩
  intro d hm kw hkw
  rw [hstruct] at hm
  have hall : matchesAllQ d (kws.map (keywordClause t) ++ yearConditions t y) = true := hm
  rw [matchesAllQ_eq_all] at hall
  have hkc : matchesQ d (keywordClause t kw) = true :=
    List.all_eq_true.mp hall _ (List.mem_append_left _ (List.mem_map_of_mem _ hkw))
  have hany : matchesAnyQ d ((uniqueTextSearchFields t).map (fun f => .regexField f kw)) = true := hkc
  rw [matchesAnyQ_eq_any] at hany
  obtain ⟨c, hc, hcm⟩ := List.any_eq_true.mp hany
  obtain ⟨f, hf, rfl⟩ := List.mem_map.mp hc
  exact ⟨f, hf, hcm⟩

/-- Witness for C1's theorem at a concrete input. -/
theorem claim1_witness :
    buildSearchQuery ["alpha", "beta"] .circular none
      = .andQ (["alpha", "beta"].map (keywordClause .circular) ++ yearConditions .circular none)
    ∧ ∀ d : Doc, matchesQ d (buildSearchQuery ["alpha", "beta"] .circular none) = true →
        ∀ kw ∈ ["alpha", "beta"], ∃ f ∈ uniqueTextSearchFields .circular,
          (d f).any (fun v => ciContains v kw) = true :=
  claim1_conjunctive_keywords ["alpha", "beta"] .circular none (by decide) (by decide)

/-- C1 counterexample: on the `actions.ts` revision of `buildSearchQuery`
(also cited by the claim), a two-keyword query matches a document in which the
second keyword matches in no applicable field — keywords are ORed there, not
ANDed. -/
theorem claim1_counterexample :
    matchesQ exDocResumenAlpha (Actions.buildSearchQuery ["alpha", "beta"] .circular none) = true
    ∧ ((uniqueTextSearchFields .circular).any
        (fun f => (exDocResumenAlpha f).any (fun v => ciContains v "beta"))) = false := by
  constructor <;> decide

/-! ### C2 -/

/-- C2: whenever the keyword list contains a circular-number code and the
document type is `circular` or `all`, both revisions of `buildSearchQuery`
return exactly the high-precision predicate on (`tipo_normativa` ~ "CIRCULAR",
`numero` = code) for the first such keyword, ignoring every other keyword and
any year; its matching semantics is exactly that two-field test. -/
theorem claim2_circular_shortcut (kws : List String) (t : DocType) (y : Option Nat)
    (k : String) (hk : k ∈ kws) (htest : circularNumberTest k = true)
    (ht : t = .circular ∨ t = .all) :
    ∃ kw, kws.find? circularNumberTest = some kw ∧ circularNumberTest kw = true ∧
      buildSearchQuery kws t y = circularShortcut kw ∧
      Actions.buildSearchQuery kws t y = circularShortcut kw ∧
      ∀ d : Doc, matchesQ d (circularShortcut kw)
        = ((d "tipo_normativa").any (fun v => ciContains v "CIRCULAR")
            && (d "numero").any (fun v => v == kw)) := by
  have hsome : (kws.find? circularNumberTest).isSome := by
    rw [List.find?_isSome]
    exact ⟨k, hk, htest⟩
  obtain ⟨kw, hfind⟩ := Option.isSome_iff_exists.mp hsome
  refine ⟨kw, hfind, List.find?_some hfind, ?_, ?_, ?_⟩
  · show (let rest := combineConditions (keywordClauses t kws ++ yearConditions t y);
      match kws.find? circularNumberTest with
      | some kw => if t = DocType.circular ∨ t = DocType.all then circularShortcut kw else rest
      | none => rest) = circularShortcut kw
    rw [hfind]
    exact if_pos ht
  · show (let kcs := kws.flatMap (fun kw =>
        (uniqueTextSearchFields t).map (fun f => MongoQuery.regexField f kw));
      let fcs := (if kcs.isEmpty then [] else [MongoQuery.orQ kcs]) ++ yearConditions t y;
      match kws.find? circularNumberTest with
      | some kw => if t = DocType.circular ∨ t = DocType.all then circularShortcut kw
                   else combineConditions fcs
      | none => combineConditions fcs) = circularShortcut kw
    rw [hfind]
    exact if_pos ht
  · intro d
    show (matchesQ d (.regexField "tipo_normativa" "CIRCULAR")
        && (matchesQ d (.eqField "numero" kw) && true)) = _
    simp [matchesQ]

/-- Witness for C2's theorem at a concrete input. -/
theorem claim2_witness :
    ∃ kw, (["06/20", "otro"].find? circularNumberTest) = some kw
      ∧ circularNumberTest kw = true
      ∧ buildSearchQuery ["06/20", "otro"] .circular (some 2023) = circularShortcut kw
      ∧ Actions.buildSearchQuery ["06/20", "otro"] .circular (some 2023) = circularShortcut kw
      ∧ ∀ d : Doc, matchesQ d (circularShortcut kw)
          = ((d "tipo_normativa").any (fun v => ciContains v "CIRCULAR")
              && (d "numero").any (fun v => v == kw)) :=
  claim2_circular_shortcut ["06/20", "otro"] .circular (some 2023) "06/20"
    (by decide) (by decide) (Or.inl rfl)

/-! ### C3 and C10: the latest-instruction resolver -/

/-- The resolver `findLatest` returns a fetched record whose parsed number dominates every
fetched record (head of the stable descending sort). -/
theorem findLatest_mem_max (letter : String) (l : List MRec) (r : MRec)
    (h : findLatest letter l = some r) :
    r ∈ l.filter (hasTituloLetter letter)
    ∧ ∀ r' ∈ l.filter (hasTituloLetter letter),
        getNumber (tituloOrEmpty r') ≤ getNumber (tituloOrEmpty r) := by
  unfold findLatest at h
  by_cases he : (l.filter (hasTituloLetter letter)).isEmpty
  · rw [if_pos he] at h
    simp at h
  · rw [if_neg he] at h
    have hsorted := List.sorted_insertionSort byNumberDesc (l.filter (hasTituloLetter letter))
    obtain ⟨tail, htail⟩ :
        ∃ tail, (l.filter (hasTituloLetter letter)).insertionSort byNumberDesc = r :: tail := by
      cases hs : (l.filter (hasTituloLetter letter)).insertionSort byNumberDesc with
      | nil => rw [hs] at h; simp at h
      | cons a as =>
        rw [hs] at h
        simp only [List.head?_cons, Option.some.injEq] at h
        exact ⟨as, by rw [h]⟩
    have hmem : r ∈ l.filter (hasTituloLetter letter) := by
      rw [← List.mem_insertionSort byNumberDesc, htail]
      exact List.mem_cons_self _ _
    refine ⟨hmem, ?_⟩
    intro r' hr'
    have hmem' : r' ∈ (l.filter (hasTituloLetter letter)).insertionSort byNumberDesc :=
      (List.mem_insertionSort byNumberDesc).mpr hr'
    rw [htail] at hmem'
    rcases List.mem_cons.mp hmem' with h1 | h1
    · rw [h1]
    · exact List.rel_of_sorted_cons (htail ▸ hsorted) r' h1

/-- C3: the resolver selects, per prefix letter, a fetched record whose parsed
`[IE]\d+` number is maximal; `interno`/`externo` return that one record,
`ambos` or an unspecified subtype return the top record of each of "I" and
"E"; on the spec's example it picks the record titled "I141 - Y". -/
theorem claim3_latest_resolution :
    (∀ letter l r, findLatest letter l = some r →
        r ∈ l.filter (hasTituloLetter letter)
        ∧ ∀ r' ∈ l.filter (hasTituloLetter letter),
            getNumber (tituloOrEmpty r') ≤ getNumber (tituloOrEmpty r))
    ∧ (∀ l, resolveLatest (some .interno) l = (findLatest "I" l).toList)
    ∧ (∀ l, resolveLatest (some .externo) l = (findLatest "E" l).toList)
    ∧ (∀ l, resolveLatest none l = (findLatest "I" l).toList ++ (findLatest "E" l).toList)
    ∧ (∀ l, resolveLatest (some .ambos) l = resolveLatest none l)
    ∧ resolveLatest (some .interno) exInstStore = [exInstI141] :=
  ⟨findLatest_mem_max, fun _ => rfl, fun _ => rfl, fun _ => rfl, fun _ => rfl, rfl⟩

/-- Witness for C3's theorem at the spec's example store. -/
theorem claim3_witness :
    exInstI141 ∈ exInstStore.filter (hasTituloLetter "I")
    ∧ ∀ r' ∈ exInstStore.filter (hasTituloLetter "I"),
        getNumber (tituloOrEmpty r') ≤ getNumber (tituloOrEmpty exInstI141) :=
  claim3_latest_resolution.1 "I" exInstStore exInstI141 rfl

/-- C10: a title that does not match `^[IE]\d+` is assigned number `0`, so it
never exceeds any other parsed number; and when no fetched title parses, the
sort leaves the fetched order unchanged and the resolver returns the first
fetched record rather than none. -/
theorem claim10_unparsed_titles :
    (∀ title, titleParses title = false → getNumber title = 0)
    ∧ (∀ t1 t2, titleParses t1 = false → getNumber t1 ≤ getNumber t2)
    ∧ (∀ letter l,
        (∀ r ∈ l.filter (hasTituloLetter letter), titleParses (tituloOrEmpty r) = false) →
        l.filter (hasTituloLetter letter) ≠ [] →
        findLatest letter l = (l.filter (hasTituloLetter letter)).head?) := by
  have h0 : ∀ title, titleParses title = false → getNumber title = 0 := by
    intro title h
    unfold titleParses at h
    unfold getNumber
    cases hl : title.toList with
    | nil => rfl
    | cons c rest =>
      rw [hl] at h
      replace h : ((c == 'I' || c == 'E') && !(rest.takeWhile Char.isDigit).isEmpty) = false := h
      show (if (c == 'I' || c == 'E') = true then
              if (rest.takeWhile Char.isDigit).isEmpty = true then 0
              else digitsVal (rest.takeWhile Char.isDigit)
            else 0) = 0
      by_cases hc : (c == 'I' || c == 'E') = true
      · rw [if_pos hc]
        rw [hc, Bool.true_and] at h
        have h2 : (rest.takeWhile Char.isDigit).isEmpty = true := by
          revert h
          cases (rest.takeWhile Char.isDigit).isEmpty <;> simp
        rw [if_pos h2]
      · rw [if_neg hc]
  refine ⟨h0, fun t1 t2 h => (h0 t1 h) ▸ Nat.zero_le _, ?_⟩
  intro letter l hall hne
  unfold findLatest
  rw [if_neg (by simpa [List.isEmpty_iff] using hne)]
  have hpw : (l.filter (hasTituloLetter letter)).Pairwise byNumberDesc := by
    apply List.pairwise_of_forall_mem_list
    intro a ha b hb
    show getNumber (tituloOrEmpty b) ≤ getNumber (tituloOrEmpty a)
    rw [h0 _ (hall b hb), h0 _ (hall a ha)]
  rw [List.Sorted.insertionSort_eq hpw]

/-- Witness for C10's theorem at concrete inputs. -/
theorem claim10_witness :
    titleParses "Ix9" = false ∧ getNumber "Ix9" = 0
    ∧ findLatest "I" exNoNumStore = (exNoNumStore.filter (hasTituloLetter "I")).head? :=
  ⟨by decide, claim10_unparsed_titles.1 "Ix9" (by decide),
   claim10_unparsed_titles.2.2 "I" exNoNumStore (by decide) (List.cons_ne_nil _ _)⟩

/-! ### C5: latest circulars by issue date -/

theorem charsLe_total : ∀ l1 l2 : List Char, charsLe l1 l2 = true ∨ charsLe l2 l1 = true
  | [], l2 => Or.inl rfl
  | a :: as, [] => Or.inr rfl
  | a :: as, b :: bs => by
    by_cases hab : a = b
    · subst hab
      rcases charsLe_total as bs with h | h
      · left; simpa [charsLe] using h
      · right; simpa [charsLe] using h
    · have hne : (a == b) = false := by simpa using hab
      have hne' : (b == a) = false := by simpa using (Ne.symm hab)
      rcases lt_or_gt_of_ne hab with h | h
      · left; simp [charsLe, hne, h]
      · right; simp [charsLe, hne', h]

theorem charsLe_trans : ∀ l1 l2 l3 : List Char,
    charsLe l1 l2 = true → charsLe l2 l3 = true → charsLe l1 l3 = true
  | [], _, _, _, _ => rfl
  | a :: as, [], _, h1, _ => by simp [charsLe] at h1
  | a :: as, b :: bs, [], _, h2 => by simp [charsLe] at h2
  | a :: as, b :: bs, c :: cs, h1, h2 => by
    by_cases hab : a = b <;> by_cases hbc : b = c
    · subst hab; subst hbc
      rw [charsLe, if_pos (by simp)] at h1 h2 ⊢
      exact charsLe_trans as bs cs h1 h2
    · subst hab
      simpa [charsLe, hbc] using h2
    · subst hbc
      simpa [charsLe, hab] using h1
    · rw [charsLe, if_neg (by simpa using hab)] at h1
      rw [charsLe, if_neg (by simpa using hbc)] at h2
      have hac : a < c := lt_trans (of_decide_eq_true h1) (of_decide_eq_true h2)
      have hac' : a ≠ c := ne_of_lt hac
      rw [charsLe, if_neg (by simpa using hac')]
      exact decide_eq_true hac

instance : IsTotal MRec byFechaDesc :=
  ⟨fun a b => charsLe_total (fechaKey b).data (fechaKey a).data⟩

instance : IsTrans MRec byFechaDesc :=
  ⟨fun _ _ _ h1 h2 => charsLe_trans _ _ _ h2 h1⟩

/-- C5: for `search_latest` on circulars, `handleSearch` dispatches to the
store-level fetch ordered by `fecha_expedicion` descending with limit 5, and
that fetch returns exactly the at-most-5 date-greatest records: at most five,
all from the collection, sorted descending, and dominating every record left
out. -/
theorem claim5_latest_circulares :
    (∀ (kws : List String) (y : Option Nat) (ity : Option InstructivoType) (db : Store),
        Actions.dispatch ⟨.search_latest, some .circular, kws, y, ity⟩ db
          = latestCirculares db.circulares)
    ∧ (∀ cs : List MRec, (latestCirculares cs).length = min 5 cs.length)
    ∧ (∀ (cs : List MRec) (r : MRec), r ∈ latestCirculares cs → r ∈ cs)
    ∧ (∀ cs : List MRec, (latestCirculares cs).Sorted byFechaDesc)
    ∧ (∀ (cs : List MRec) (r r' : MRec), r ∈ latestCirculares cs → r' ∈ cs →
        r' ∉ latestCirculares cs → byFechaDesc r r') := by
  refine ⟨fun kws y ity db => rfl, ?_, ?_, ?_, ?_⟩
  · intro cs
    simp [latestCirculares, List.length_take, List.length_insertionSort]
  · intro cs r hr
    have h1 : r ∈ cs.insertionSort byFechaDesc :=
      (List.take_sublist 5 _).mem hr
    exact (List.mem_insertionSort byFechaDesc).mp h1
  · intro cs
    exact (List.sorted_insertionSort byFechaDesc cs).sublist (List.take_sublist 5 _)
  · intro cs r r' hr hr' hnr
    have hsorted := List.sorted_insertionSort byFechaDesc cs
    have hsplit : cs.insertionSort byFechaDesc
        = (cs.insertionSort byFechaDesc).take 5 ++ (cs.insertionSort byFechaDesc).drop 5 :=
      (List.take_append_drop 5 _).symm
    have hp : ((cs.insertionSort byFechaDesc).take 5
        ++ (cs.insertionSort byFechaDesc).drop 5).Pairwise byFechaDesc := by
      rw [← hsplit]; exact hsorted
    have hmem' : r' ∈ cs.insertionSort byFechaDesc := (List.mem_insertionSort byFechaDesc).mpr hr'
    rw [hsplit] at hmem'
    rcases List.mem_append.mp hmem' with h1 | h1
    · exact absurd h1 hnr
    · exact (List.pairwise_append.mp hp).2.2 r hr r' h1

/-- Witness for C5's theorem at a concrete store. -/
theorem claim5_witness :
    Actions.dispatch ⟨.search_latest, some .circular, [], none, none⟩ exCircDb
      = latestCirculares exCircDb.circulares
    ∧ (latestCirculares exCircDb.circulares).length = min 5 exCircDb.circulares.length
    ∧ latestCirculares exCircDb.circulares = [exCircNew, exCircOld] :=
  ⟨claim5_latest_circulares.1 [] none none exCircDb,
   claim5_latest_circulares.2.1 exCircDb.circulares, rfl⟩

/-! ### C8 and C9: orchestration short-circuits -/

/-- C8: when the flow reaches dispatch and the dispatch returns no record, the
flow returns the fixed no-results answer with an empty result list and never
reaches the synthesizer call (a `terminal` outcome); the two-phase answer call
does the same when handed zero records. -/
theorem claim8_zero_results (q : String) (i : Intent) (db : Store)
    (hsc : shortCircuitTest i = false)
    (hz : dispatchV1 i db = [])
    (_hnc : i.intent ≠ .count_items) :
    flowV1 q (some i) db = .terminal [] noResultsAnswer
    ∧ answerPhase [] = .terminal [] noResultsAnswer := by
  constructor
  · simp only [flowV1, hsc, Bool.false_eq_true, if_false, hz]
    rfl
  · rfl

/-- Witness for C8's theorem at a concrete query and store. -/
theorem claim8_witness :
    shortCircuitTest exNoMatchIntent = false
    ∧ dispatchV1 exNoMatchIntent exEmptyDb = []
    ∧ flowV1 "consulta" (some exNoMatchIntent) exEmptyDb = .terminal [] noResultsAnswer :=
  ⟨rfl, rfl, (claim8_zero_results "consulta" exNoMatchIntent exEmptyDb rfl rfl (by decide)).1⟩

/-- C9: an unknown intent, or a non-`search_latest` intent with neither
keywords nor year, terminates before any store access (the outcome does not
depend on the store, and the two-phase first call has no store argument at
all), answering with the greeting when the query contains "hola" and with the
generic cannot-help reply otherwise. -/
theorem claim9_short_circuit (q : String) (i : Intent) (db db' : Store)
    (h : i.intent = .unknown
      ∨ (i.intent ≠ .search_latest ∧ i.keywords = [] ∧ i.year = none)) :
    flowV1 q (some i) db
      = .terminal [] (if ciContains q "hola" then greetingAnswer else cannotHelpAnswer)
    ∧ flowV1 q (some i) db = flowV1 q (some i) db'
    ∧ classifyPhase q (some i)
      = .terminalP [] (if ciContains q "hola" then greetingAnswer else cannotHelpAnswer) := by
  have hsc : shortCircuitTest i = true := by
    unfold shortCircuitTest
    rcases h with h | ⟨h1, h2, h3⟩
    · simp [h]
    · simp [h1, h2, h3, yearTruthy]
  have e : ∀ dbx : Store, flowV1 q (some i) dbx
      = .terminal [] (if ciContains q "hola" then greetingAnswer else cannotHelpAnswer) := by
    intro dbx
    simp only [flowV1, hsc, if_true]
    by_cases hg : ciContains q "hola" = true
    · rw [if_pos hg, if_pos hg]
    · rw [if_neg hg, if_neg hg]
  have e3 : classifyPhase q (some i)
      = .terminalP [] (if ciContains q "hola" then greetingAnswer else cannotHelpAnswer) := by
    simp only [classifyPhase, hsc, if_true]
    by_cases hg : ciContains q "hola" = true
    · rw [if_pos hg, if_pos hg]
    · rw [if_neg hg, if_neg hg]
  exact ⟨e db, (e db).trans (e db').symm, e3⟩

/-- Witness for C9's theorem: "hola" with an unknown intent gets the greeting,
independently of the store. -/
theorem claim9_witness :
    flowV1 "hola" (some exUnknownIntent) exCircDb = .terminal [] greetingAnswer
    ∧ flowV1 "hola" (some exUnknownIntent) exCircDb
      = flowV1 "hola" (some exUnknownIntent) exEmptyDb := by
  have h := claim9_short_circuit "hola" exUnknownIntent exCircDb exEmptyDb (Or.inl rfl)
  have hg : ciContains "hola" "hola" = true := by decide
  exact ⟨by rw [h.1, hg]; rfl, h.2.1⟩

/-! ### C4: count_items -/

/-- C4 counterexample: the `search-documents.ts` revision (also cited by the
claim) has no `count_items` branch — a `count_items` intent takes the generic
search path, so the synthesizer receives the serialized record list, not the
scalar count. -/
theorem claim4_counterexample :
    flowV1 "cuántas circulares sobre tasa" (some exCountIntent) exCountDb
      = .synthesized [processRecord (sanitizeKeywords exCircTasa)]
          (.recordsCtx [sanitizeKeywords exCircTasa])
    ∧ SynthContext.recordsCtx [sanitizeKeywords exCircTasa]
        ≠ SynthContext.countCtx (countItems exCountDb .circular) :=
  ⟨rfl, fun h => SynthContext.noConfusion h⟩

/-- C4 (amended): in the `part_003` revision, a `count_items` intent produces
a scalar per requested collection — a document count for `circulares` and
`instructivos`, the unwound-article count for `reglamentos`, summed for
`all` — and the synthesizer receives that scalar as context with an empty
record list.  (The `search-documents.ts` revision lacks this branch — see the
counterexample.) -/
theorem claim4_count_scalar :
    (∀ db : Store, countItems db .circular = db.circulares.length)
    ∧ (∀ db : Store, countItems db .instruction = db.instructivos.length)
    ∧ (∀ db : Store, countItems db .regulation = unwindArticleCount db.reglamentos)
    ∧ (∀ db : Store, countItems db .all
        = db.circulares.length + db.instructivos.length + unwindArticleCount db.reglamentos)
    ∧ (∀ (q : String) (i : Intent) (db : Store) (t : DocType),
        i.intent = .count_items → i.documentType = some t →
        flowV2 q (some i) db = .synthesized [] (.countCtx (countItems db t))) := by
  refine ⟨fun db => rfl, fun db => rfl, fun db => rfl, fun db => ?_, ?_⟩
  · show db.circulares.length + (db.instructivos.length + (unwindArticleCount db.reglamentos + 0)) = _
    omega
  · intro q i db t h1 h2
    obtain ⟨ik, dt, kws, yr, ity⟩ := i
    simp only at h1 h2
    subst h1
    subst h2
    rfl

/-- Witness for C4's theorem at a concrete store and intent. -/
theorem claim4_witness :
    countItems exCountDb .circular = exCountDb.circulares.length
    ∧ flowV2 "cuántas circulares" (some exCountIntent) exCountDb
        = .synthesized [] (.countCtx (countItems exCountDb .circular)) :=
  ⟨claim4_count_scalar.1 exCountDb,
   claim4_count_scalar.2.2.2.2 "cuántas circulares" exCountIntent exCountDb .circular rfl rfl⟩

/-! ### C6: pruning and date rendering -/

/-- C6 counterexample: both normalizers prune only top-level fields — a `null`
nested inside an article survives normalization. -/
theorem claim6_counterexample :
    (normalizePipeline [exNestedRec]).any (fun r => containsNullFields r.fields) = true
    ∧ (Actions.normalizePipeline [exNestedRec]).any (fun r => containsNullFields r.fields) = true :=
  ⟨rfl, rfl⟩

theorem pruneTopLevel_clean (fs : List (String × JVal)) :
    (pruneTopLevel fs).all (fun kv => cleanVal kv.2) = true := by
  rw [List.all_eq_true]
  intro kv hkv
  obtain ⟨⟨k, v⟩, ha, hfa⟩ := List.mem_filterMap.mp hkv
  cases v <;> simp [pruneEntry] at hfa <;> (subst hfa; rfl)

theorem setFieldJ_clean (fs : List (String × JVal)) (k : String) (v : JVal)
    (hfs : fs.all (fun kv => cleanVal kv.2) = true) (hv : cleanVal v = true) :
    (setFieldJ fs k v).all (fun kv => cleanVal kv.2) = true := by
  rw [List.all_eq_true] at *
  intro kv hkv
  obtain ⟨a, ha, rfl⟩ := List.mem_map.mp hkv
  by_cases h : (a.1 == k) = true
  · simpa [h] using hv
  · simpa [h] using hfs a ha

theorem applyArticulos_clean (fs : List (String × JVal))
    (h : fs.all (fun kv => cleanVal kv.2) = true) :
    (applyArticulosCoercion fs).all (fun kv => cleanVal kv.2) = true := by
  unfold applyArticulosCoercion
  split
  · exact setFieldJ_clean _ _ _ h rfl
  · exact h

theorem processRecord_clean (r : MRec) : topLevelClean (processRecord r) = true :=
  applyArticulos_clean _ (pruneTopLevel_clean _)

theorem actionsProcessRecord_clean (r : MRec) :
    topLevelClean (Actions.processRecord r) = true := by
  have h := applyArticulos_clean (pruneTopLevel r.fields) (pruneTopLevel_clean _)
  unfold Actions.processRecord
  dsimp only
  split
  · split
    · exact setFieldJ_clean _ _ _ h rfl
    · exact h
  · exact h

/-- C6 (amended): both normalizers remove all *top-level* `null`/`undefined`
fields and render all *top-level* date values as their ISO-8601 strings;
fields nested inside sub-records are not pruned (see the counterexample). -/
theorem claim6_toplevel_normalization :
    (∀ (rs : List MRec) (r : MRec), r ∈ normalizePipeline rs → topLevelClean r = true)
    ∧ (∀ (rs : List MRec) (r : MRec), r ∈ Actions.normalizePipeline rs → topLevelClean r = true)
    ∧ (∀ (fs : List (String × JVal)) (k iso : String),
        (k, JVal.vdate iso) ∈ fs → (k, JVal.vstr iso) ∈ pruneTopLevel fs) := by
  refine ⟨?_, ?_, ?_⟩
  · intro rs r hr
    rw [normalizePipeline] at hr
    obtain ⟨d, _, rfl⟩ := List.mem_map.mp hr
    exact processRecord_clean d
  · intro rs r hr
    rw [Actions.normalizePipeline] at hr
    obtain ⟨d, _, rfl⟩ := List.mem_map.mp hr
    exact actionsProcessRecord_clean d
  · intro fs k iso h
    exact List.mem_filterMap.mpr ⟨(k, .vdate iso), h, rfl⟩

/-- Witness for C6's theorem at a concrete record. -/
theorem claim6_witness :
    topLevelClean (processRecord (sanitizeKeywords exDateRec)) = true
    ∧ ("fecha_expedicion", JVal.vstr "2021-07-01T00:00:00.000Z") ∈ pruneTopLevel exDateRec.fields := by
  constructor
  · refine claim6_toplevel_normalization.1 [exDateRec] _ ?_
    rw [show normalizePipeline [exDateRec]
        = [processRecord (sanitizeKeywords exDateRec)] from rfl]
    exact List.mem_singleton_self _
  · exact claim6_toplevel_normalization.2.2 exDateRec.fields _ _ (List.mem_cons_self _ _)

/-! ### C7: deduplication and idempotence -/

theorem sanitizeKeywords_idStr (r : MRec) : (sanitizeKeywords r).idStr = r.idStr := by
  unfold sanitizeKeywords
  split <;> rfl

theorem processRecord_idStr (r : MRec) : (processRecord r).idStr = r.idStr := rfl

theorem dedupByIdAux_mem (seen : List String) (rs : List MRec) (r : MRec)
    (h : r ∈ dedupByIdAux seen rs) : r ∈ rs ∧ seen.contains r.idStr = false := by
  induction rs generalizing seen with
  | nil => simp [dedupByIdAux] at h
  | cons a as ih =>
    rw [dedupByIdAux] at h
    by_cases hc : (seen.contains a.idStr) = true
    · rw [if_pos hc] at h
      obtain ⟨h1, h2⟩ := ih seen h
      exact ⟨List.mem_cons_of_mem _ h1, h2⟩
    · rw [if_neg hc] at h
      rcases List.mem_cons.mp h with h1 | h1
      · subst h1
        exact ⟨List.mem_cons_self _ _, Bool.eq_false_iff.mpr hc⟩
      · obtain ⟨h1', h2'⟩ := ih _ h1
        refine ⟨List.mem_cons_of_mem _ h1', ?_⟩
        rw [List.contains_cons] at h2'
        exact Bool.or_eq_false_iff.mp h2' |>.2

theorem dedupByIdAux_pairwise (seen : List String) (rs : List MRec) :
    (dedupByIdAux seen rs).Pairwise (fun a b => a.idStr ≠ b.idStr) := by
  induction rs generalizing seen with
  | nil => exact List.Pairwise.nil
  | cons a as ih =>
    rw [dedupByIdAux]
    by_cases hc : (seen.contains a.idStr) = true
    · rw [if_pos hc]
      exact ih seen
    · rw [if_neg hc]
      refine List.Pairwise.cons ?_ (ih _)
      intro b hb
      have h2 := (dedupByIdAux_mem _ _ _ hb).2
      rw [List.contains_cons] at h2
      have := Bool.or_eq_false_iff.mp h2 |>.1
      intro he
      rw [he] at this
      simp at this

theorem dedupByIdAux_eq_self (seen : List String) (l : List MRec)
    (hp : l.Pairwise (fun a b => a.idStr ≠ b.idStr))
    (hs : ∀ r ∈ l, seen.contains r.idStr = false) :
    dedupByIdAux seen l = l := by
  induction l generalizing seen with
  | nil => rfl
  | cons a as ih =>
    rw [dedupByIdAux,
      if_neg (by have := hs a (List.mem_cons_self _ _); simpa using this)]
    congr 1
    refine ih _ hp.of_cons ?_
    intro r hr
    rw [List.contains_cons]
    have h1 : (r.idStr == a.idStr) = false := by
      have := List.rel_of_pairwise_cons hp hr
      simpa using Ne.symm this
    rw [h1, hs r (List.mem_cons_of_mem _ hr)]
    rfl

theorem setFieldJ_keys (fs : List (String × JVal)) (k : String) (v : JVal) :
    (setFieldJ fs k v).map Prod.fst = fs.map Prod.fst := by
  unfold setFieldJ
  rw [List.map_map]
  apply List.map_congr_left
  intro a _
  dsimp only [Function.comp]
  split <;> rfl

theorem lookup_setFieldJ_self (fs : List (String × JVal)) (k : String) (v : JVal) :
    (setFieldJ fs k v).lookup k = (fs.lookup k).map (fun _ => v) := by
  induction fs with
  | nil => rfl
  | cons a as ih =>
    obtain ⟨ka, va⟩ := a
    show ((if ka == k then (ka, v) else (ka, va)) :: setFieldJ as k v).lookup k
        = (((ka, va) :: as).lookup k).map (fun _ => v)
    by_cases h : (ka == k) = true
    · have hk : (k == ka) = true := by rw [beq_iff_eq] at *; exact h.symm
      rw [if_pos h, List.lookup_cons, List.lookup_cons, hk]
      rfl
    · have hk : (k == ka) = false := by
        rw [Bool.eq_false_iff] at *
        intro hx
        exact h (by rw [beq_iff_eq] at hx ⊢; exact hx.symm)
      rw [if_neg h, List.lookup_cons, List.lookup_cons, hk]
      exact ih

theorem lookup_setFieldJ_ne (fs : List (String × JVal)) (k k' : String) (v : JVal)
    (h : (k' == k) = false) :
    (setFieldJ fs k v).lookup k' = fs.lookup k' := by
  induction fs with
  | nil => rfl
  | cons a as ih =>
    obtain ⟨ka, va⟩ := a
    show ((if ka == k then (ka, v) else (ka, va)) :: setFieldJ as k v).lookup k'
        = ((ka, va) :: as).lookup k'
    by_cases hk : (ka == k) = true
    · have e : (k' == ka) = false := by
        rw [beq_iff_eq] at hk
        rw [hk]
        exact h
      rw [if_pos hk, List.lookup_cons, List.lookup_cons, e]
      exact ih
    · rw [if_neg hk, List.lookup_cons, List.lookup_cons]
      by_cases h2 : (k' == ka) = true
      · rw [h2]
      · rw [Bool.eq_false_iff.mpr h2]
        exact ih

theorem pruneEntry_key (k : String) (v : JVal) (kv' : String × JVal)
    (h : pruneEntry (k, v) = some kv') : kv'.1 = k := by
  cases v <;> simp [pruneEntry] at h <;> simp [← h]

theorem pruneEntry_clean (k : String) (v : JVal) (h : cleanVal v = true) :
    pruneEntry (k, v) = some (k, v) := by
  cases v <;> first
    | rfl
    | simp [cleanVal] at h

theorem pruneTopLevel_of_clean (fs : List (String × JVal))
    (h : fs.all (fun kv => cleanVal kv.2) = true) :
    pruneTopLevel fs = fs := by
  induction fs with
  | nil => rfl
  | cons a as ih =>
    rw [List.all_cons, Bool.and_eq_true] at h
    obtain ⟨ka, va⟩ := a
    rw [pruneTopLevel, List.filterMap_cons, pruneEntry_clean _ _ h.1]
    rw [show List.filterMap pruneEntry as = pruneTopLevel as from rfl, ih h.2]

theorem lookup_eq_none_of_not_mem_keys (l : List (String × JVal)) (k : String)
    (h : k ∉ l.map Prod.fst) : l.lookup k = none := by
  induction l with
  | nil => rfl
  | cons a as ih =>
    obtain ⟨ka, va⟩ := a
    rw [List.map_cons, List.mem_cons] at h
    push_neg at h
    rw [List.lookup_cons, beq_eq_false_iff_ne.mpr h.1]
    exact ih h.2

theorem pruneTopLevel_keys_sub (fs : List (String × JVal)) (k : String)
    (h : k ∈ (pruneTopLevel fs).map Prod.fst) : k ∈ fs.map Prod.fst := by
  obtain ⟨kv, hkv, rfl⟩ := List.mem_map.mp h
  obtain ⟨⟨ka, va⟩, ha, hfa⟩ := List.mem_filterMap.mp hkv
  rw [pruneEntry_key _ _ _ hfa]
  exact List.mem_map_of_mem _ ha

theorem lookup_pruneTopLevel (fs : List (String × JVal))
    (hnd : (fs.map Prod.fst).Nodup) (k : String) :
    (pruneTopLevel fs).lookup k
      = (fs.lookup k).bind (fun v => (pruneEntry (k, v)).map Prod.snd) := by
  induction fs with
  | nil => rfl
  | cons a as ih =>
    obtain ⟨ka, va⟩ := a
    rw [List.map_cons, List.nodup_cons] at hnd
    obtain ⟨hka, hnd2⟩ := hnd
    have ihs := ih hnd2
    cases hpe : pruneEntry (ka, va) with
    | none =>
      rw [pruneTopLevel, List.filterMap_cons_none hpe]
      by_cases hk : (k == ka) = true
      · have hkk : k = ka := beq_iff_eq.mp hk
        subst hkk
        have hnone : (pruneTopLevel as).lookup k =  none :=
          lookup_eq_none_of_not_mem_keys _ _ (fun hm => hka (pruneTopLevel_keys_sub as k hm))
        rw [show List.filterMap pruneEntry as = pruneTopLevel as from rfl, hnone,
          List.lookup_cons, hk]
        simp [hpe]
      · rw [show List.filterMap pruneEntry as = pruneTopLevel as from rfl, ihs,
          List.lookup_cons, Bool.eq_false_iff.mpr hk]
    | some kv2 =>
      obtain ⟨k1, v1⟩ := kv2
      have hk1 : k1 = ka := pruneEntry_key _ _ _ hpe
      rw [pruneTopLevel, List.filterMap_cons_some hpe,
        List.lookup_cons, List.lookup_cons,
        show List.filterMap pruneEntry as = pruneTopLevel as from rfl, hk1]
      by_cases hk : (k == ka) = true
      · rw [hk]
        have hkk : k = ka := beq_iff_eq.mp hk
        subst hkk
        simp [hpe]
      · rw [Bool.eq_false_iff.mpr hk]
        exact ihs

theorem lookup_applyArticulos_ne (fs : List (String × JVal)) (k : String)
    (h : (k == "articulos") = false) :
    (applyArticulosCoercion fs).lookup k = fs.lookup k := by
  unfold applyArticulosCoercion
  split
  · exact lookup_setFieldJ_ne _ _ _ _ h
  · rfl

theorem setFieldJ_setFieldJ (fs : List (String × JVal)) (k : String) (v w : JVal) :
    setFieldJ (setFieldJ fs k v) k w = setFieldJ fs k w := by
  unfold setFieldJ
  rw [List.map_map]
  apply List.map_congr_left
  intro a _
  dsimp only [Function.comp]
  by_cases h : (a.1 == k) = true <;> simp [h]

theorem jsStringOf_vstr (s : String) : jsStringOf (.vstr s) = s := rfl

theorem coerceArticulo_vobj (fs : List (String × JVal)) :
    coerceArticulo (JVal.vobj fs)
      = (match fs.lookup "numero_articulo" with
        | some v =>
          if jsTruthy v = true
          then JVal.vobj (setFieldJ fs "numero_articulo" (JVal.vstr (jsStringOf v)))
          else JVal.vobj fs
        | none => JVal.vobj fs) := rfl

theorem coerceArticulo_idem (a : JVal) :
    coerceArticulo (coerceArticulo a) = coerceArticulo a := by
  cases a with
  | vobj fs =>
    cases hl : fs.lookup "numero_articulo" with
    | none =>
      have hstep : coerceArticulo (JVal.vobj fs) = JVal.vobj fs := by
        rw [coerceArticulo_vobj, hl]
      rw [hstep, hstep]
    | some v =>
      have hstep : coerceArticulo (JVal.vobj fs)
          = if jsTruthy v = true
              then JVal.vobj (setFieldJ fs "numero_articulo" (JVal.vstr (jsStringOf v)))
              else JVal.vobj fs := by
        rw [coerceArticulo_vobj, hl]
      rw [hstep]
      by_cases ht : jsTruthy v = true
      · rw [if_pos ht]
        have h2 : (setFieldJ fs "numero_articulo" (JVal.vstr (jsStringOf v))).lookup "numero_articulo"
            = some (JVal.vstr (jsStringOf v)) := by
          rw [lookup_setFieldJ_self, hl]
          rfl
        rw [coerceArticulo_vobj, h2]
        show (if jsTruthy (JVal.vstr (jsStringOf v)) = true
            then JVal.vobj (setFieldJ (setFieldJ fs "numero_articulo" (JVal.vstr (jsStringOf v)))
              "numero_articulo" (JVal.vstr (jsStringOf (JVal.vstr (jsStringOf v)))))
            else JVal.vobj (setFieldJ fs "numero_articulo" (JVal.vstr (jsStringOf v))))
          = JVal.vobj (setFieldJ fs "numero_articulo" (JVal.vstr (jsStringOf v)))
        by_cases ht2 : jsTruthy (JVal.vstr (jsStringOf v)) = true
        · rw [if_pos ht2, setFieldJ_setFieldJ, jsStringOf_vstr]
        · rw [if_neg ht2]
      · rw [if_neg ht, hstep, if_neg ht]
  | vnull => rfl
  | vundef => rfl
  | vstr s => rfl
  | vnum n => rfl
  | vdate iso => rfl
  | varr es => rfl

theorem applyArticulos_vobj (fs : List (String × JVal)) :
    applyArticulosCoercion fs
      = (match fs.lookup "articulos" with
        | some (.varr as) => setFieldJ fs "articulos" (.varr (as.map coerceArticulo))
        | _ => fs) := rfl

theorem applyArticulos_idem (fs : List (String × JVal)) :
    applyArticulosCoercion (applyArticulosCoercion fs) = applyArticulosCoercion fs := by
  cases hl : fs.lookup "articulos" with
  | none =>
    have hstep : applyArticulosCoercion fs = fs := by rw [applyArticulos_vobj, hl]
    rw [hstep, hstep]
  | some v =>
    cases v with
    | varr as =>
      have hstep : applyArticulosCoercion fs
          = setFieldJ fs "articulos" (.varr (as.map coerceArticulo)) := by
        rw [applyArticulos_vobj, hl]
      rw [hstep]
      have h2 : (setFieldJ fs "articulos" (JVal.varr (as.map coerceArticulo))).lookup "articulos"
          = some (JVal.varr (as.map coerceArticulo)) := by
        rw [lookup_setFieldJ_self, hl]
        rfl
      rw [applyArticulos_vobj, h2]
      show setFieldJ (setFieldJ fs "articulos" (JVal.varr (as.map coerceArticulo)))
          "articulos" (JVal.varr ((as.map coerceArticulo).map coerceArticulo))
        = setFieldJ fs "articulos" (JVal.varr (as.map coerceArticulo))
      rw [setFieldJ_setFieldJ]
      congr 2
      rw [List.map_map]
      apply List.map_congr_left
      intro a _
      exact coerceArticulo_idem a
    | vnull =>
      have hstep : applyArticulosCoercion fs = fs := by rw [applyArticulos_vobj, hl]
      rw [hstep, hstep]
    | vundef =>
      have hstep : applyArticulosCoercion fs = fs := by rw [applyArticulos_vobj, hl]
      rw [hstep, hstep]
    | vstr s =>
      have hstep : applyArticulosCoercion fs = fs := by rw [applyArticulos_vobj, hl]
      rw [hstep, hstep]
    | vnum n =>
      have hstep : applyArticulosCoercion fs = fs := by rw [applyArticulos_vobj, hl]
      rw [hstep, hstep]
    | vdate iso =>
      have hstep : applyArticulosCoercion fs = fs := by rw [applyArticulos_vobj, hl]
      rw [hstep, hstep]
    | vobj fs2 =>
      have hstep : applyArticulosCoercion fs = fs := by rw [applyArticulos_vobj, hl]
      rw [hstep, hstep]

theorem processRecord_idem (r : MRec) :
    processRecord (processRecord r) = processRecord r := by
  show (⟨r.idStr, applyArticulosCoercion (pruneTopLevel
      (applyArticulosCoercion (pruneTopLevel r.fields)))⟩ : MRec)
    = ⟨r.idStr, applyArticulosCoercion (pruneTopLevel r.fields)⟩
  rw [pruneTopLevel_of_clean _ (applyArticulos_clean _ (pruneTopLevel_clean _)),
    applyArticulos_idem]

theorem sanitizeKeywords_eq (r : MRec) :
    sanitizeKeywords r
      = (match r.fields.lookup "palabras_clave" with
        | some (.vstr s) => ⟨r.idStr, setFieldJ r.fields "palabras_clave" (splitKeywordString s)⟩
        | _ => r) := rfl

theorem sanitize_after_process (d : MRec)
    (hnd : (d.fields.map Prod.fst).Nodup)
    (hkd : keywordsNotDate d = true) :
    sanitizeKeywords (processRecord (sanitizeKeywords d))
      = processRecord (sanitizeKeywords d) := by
  have hne : (("palabras_clave" : String) == "articulos") = false := by decide
  cases hl : d.fields.lookup "palabras_clave" with
  | none =>
    have hs : sanitizeKeywords d = d := by rw [sanitizeKeywords_eq, hl]
    rw [hs]
    have hlook : (processRecord d).fields.lookup "palabras_clave" = none := by
      show (applyArticulosCoercion (pruneTopLevel d.fields)).lookup "palabras_clave" = none
      rw [lookup_applyArticulos_ne _ _ hne, lookup_pruneTopLevel _ hnd, hl]
      rfl
    rw [sanitizeKeywords_eq, hlook]
  | some v =>
    cases v with
    | vstr s =>
      have hs : sanitizeKeywords d
          = ⟨d.idStr, setFieldJ d.fields "palabras_clave" (splitKeywordString s)⟩ := by
        rw [sanitizeKeywords_eq, hl]
      have hnd2 : ((setFieldJ d.fields "palabras_clave" (splitKeywordString s)).map Prod.fst).Nodup := by
        rw [setFieldJ_keys]
        exact hnd
      have hlook : (processRecord (sanitizeKeywords d)).fields.lookup "palabras_clave"
          = some (splitKeywordString s) := by
        rw [hs]
        show (applyArticulosCoercion (pruneTopLevel
            (setFieldJ d.fields "palabras_clave" (splitKeywordString s)))).lookup "palabras_clave"
          = some (splitKeywordString s)
        rw [lookup_applyArticulos_ne _ _ hne, lookup_pruneTopLevel _ hnd2,
          lookup_setFieldJ_self, hl]
        rfl
      rw [sanitizeKeywords_eq, hlook]
      rfl
    | vnull =>
      have hs : sanitizeKeywords d = d := by rw [sanitizeKeywords_eq, hl]
      rw [hs]
      have hlook : (processRecord d).fields.lookup "palabras_clave" = none := by
        show (applyArticulosCoercion (pruneTopLevel d.fields)).lookup "palabras_clave" = none
        rw [lookup_applyArticulos_ne _ _ hne, lookup_pruneTopLevel _ hnd, hl]
        rfl
      rw [sanitizeKeywords_eq, hlook]
    | vundef =>
      have hs : sanitizeKeywords d = d := by rw [sanitizeKeywords_eq, hl]
      rw [hs]
      have hlook : (processRecord d).fields.lookup "palabras_clave" = none := by
        show (applyArticulosCoercion (pruneTopLevel d.fields)).lookup "palabras_clave" = none
        rw [lookup_applyArticulos_ne _ _ hne, lookup_pruneTopLevel _ hnd, hl]
        rfl
      rw [sanitizeKeywords_eq, hlook]
    | vnum n =>
      have hs : sanitizeKeywords d = d := by rw [sanitizeKeywords_eq, hl]
      rw [hs]
      have hlook : (processRecord d).fields.lookup "palabras_clave" = some (.vnum n) := by
        show (applyArticulosCoercion (pruneTopLevel d.fields)).lookup "palabras_clave" = _
        rw [lookup_applyArticulos_ne _ _ hne, lookup_pruneTopLevel _ hnd, hl]
        rfl
      rw [sanitizeKeywords_eq, hlook]
    | vdate iso =>
      have : false = true := by
        have h2 := hkd
        unfold keywordsNotDate at h2
        rw [hl] at h2
        exact h2
      simp at this
    | varr es =>
      have hs : sanitizeKeywords d = d := by rw [sanitizeKeywords_eq, hl]
      rw [hs]
      have hlook : (processRecord d).fields.lookup "palabras_clave" = some (.varr es) := by
        show (applyArticulosCoercion (pruneTopLevel d.fields)).lookup "palabras_clave" = _
        rw [lookup_applyArticulos_ne _ _ hne, lookup_pruneTopLevel _ hnd, hl]
        rfl
      rw [sanitizeKeywords_eq, hlook]
    | vobj fs2 =>
      have hs : sanitizeKeywords d = d := by rw [sanitizeKeywords_eq, hl]
      rw [hs]
      have hlook : (processRecord d).fields.lookup "palabras_clave" = some (.vobj fs2) := by
        show (applyArticulosCoercion (pruneTopLevel d.fields)).lookup "palabras_clave" = _
        rw [lookup_applyArticulos_ne _ _ hne, lookup_pruneTopLevel _ hnd, hl]
        rfl
      rw [sanitizeKeywords_eq, hlook]

/-- C7 counterexample: the normalization pipeline is not idempotent — on a
record with a date-typed `palabras_clave`, re-normalizing the normalized
output changes it again. -/
theorem claim7_counterexample :
    normalizePipeline (normalizePipeline [exDateKwRec]) ≠ normalizePipeline [exDateKwRec] := by
  have h2 : normalizePipeline (normalizePipeline [exDateKwRec])
      = [⟨"c9", [("palabras_clave", JVal.varr [JVal.vstr "2023-05-05T00:00:00.000Z"])]⟩] := rfl
  have h1 : normalizePipeline [exDateKwRec]
      = [⟨"c9", [("palabras_clave", JVal.vstr "2023-05-05T00:00:00.000Z")]⟩] := rfl
  rw [h2, h1]
  intro h
  simp at h

/-- C7 (amended): the normalized output never contains two records with the
same `_id` (first occurrence wins), and the pipeline is idempotent on
well-formed inputs — records with unique field names whose `palabras_clave`
is not date-typed.  (Idempotence fails for date-typed `palabras_clave`: see
the counterexample.) -/
theorem claim7_dedup_idempotence :
    (∀ rs : List MRec, (normalizePipeline rs).Pairwise (fun a b => a.idStr ≠ b.idStr))
    ∧ (∀ rs : List MRec,
        (∀ r ∈ rs, (r.fields.map Prod.fst).Nodup ∧ keywordsNotDate r = true) →
        normalizePipeline (normalizePipeline rs) = normalizePipeline rs) := by
  have hpair : ∀ rs : List MRec,
      (normalizePipeline rs).Pairwise (fun a b => a.idStr ≠ b.idStr) := by
    intro rs
    unfold normalizePipeline
    rw [List.pairwise_map, List.pairwise_map]
    apply List.Pairwise.imp ?_ (dedupByIdAux_pairwise [] rs)
    intro a b hab
    show (processRecord (sanitizeKeywords a)).idStr ≠ (processRecord (sanitizeKeywords b)).idStr
    rw [processRecord_idStr, processRecord_idStr, sanitizeKeywords_idStr, sanitizeKeywords_idStr]
    exact hab
  refine ⟨hpair, ?_⟩
  intro rs hwf
  have hded : dedupById (normalizePipeline rs) = normalizePipeline rs :=
    dedupByIdAux_eq_self [] _ (hpair rs) (fun r _ => rfl)
  have hmem : ∀ r ∈ normalizePipeline rs,
      ∃ d, d ∈ rs ∧ r = processRecord (sanitizeKeywords d) := by
    intro r hr
    unfold normalizePipeline at hr
    obtain ⟨x, hx, rfl⟩ := List.mem_map.mp hr
    obtain ⟨d, hd, rfl⟩ := List.mem_map.mp hx
    exact ⟨d, (dedupByIdAux_mem [] rs d hd).1, rfl⟩
  have hsan : ∀ r ∈ normalizePipeline rs, sanitizeKeywords r = r := by
    intro r hr
    obtain ⟨d, hd, rfl⟩ := hmem r hr
    exact sanitize_after_process d (hwf d hd).1 (hwf d hd).2
  have hproc : ∀ r ∈ normalizePipeline rs, processRecord r = r := by
    intro r hr
    obtain ⟨d, hd, rfl⟩ := hmem r hr
    exact processRecord_idem (sanitizeKeywords d)
  show ((dedupById (normalizePipeline rs)).map sanitizeKeywords).map processRecord
      = normalizePipeline rs
  rw [hded]
  have e1 : (normalizePipeline rs).map sanitizeKeywords = normalizePipeline rs := by
    have := List.map_congr_left hsan
    simpa using this
  rw [e1]
  have e2 : (normalizePipeline rs).map processRecord = normalizePipeline rs := by
    have := List.map_congr_left hproc
    simpa using this
  exact e2

/-- Witness for C7's theorem at a concrete record list. -/
theorem claim7_witness :
    normalizePipeline (normalizePipeline [exCircTasa]) = normalizePipeline [exCircTasa] :=
  claim7_dedup_idempotence.2 [exCircTasa] (by decide)
